import Mathlib

/-!
# Verification of the golang-load-balancer core

Shallow embedding of `src/main.go`: the `Server` interface, the `SimpleServer`
health stub, the round-robin selection loop `GetNextAvailableServer`, and the
dispatch entry point `ServeProxy`, together with the spec-level components
(`HealthState`, plain round robin) needed to check the specification's claims.

The Go loop in `GetNextAvailableServer` has no termination guarantee, so it is
embedded with an explicit fuel argument counting loop iterations: `spinning`
means the loop has not exited within the given fuel (for an all-dead backend
set it never exits, for any fuel), `panicked` models the Go runtime panic
`integer divide by zero` raised by `rrc % len(servers)` on an empty slice, and
`picked` carries the returned server together with the updated
`roundRobinCount`.
-/

namespace GoLoadBalancer

/-- The `Server` interface of src/main.go as the load balancer observes it in
one selection/dispatch step: an address, the value its `IsAlive()` method
returns, and whether its `Serve` (the reverse-proxy forward) succeeds at the
transport level. -/
structure Server where
  addr : String
  alive : Bool
  serveOk : Bool
deriving DecidableEq, Repr

/-- `IsAlive` of the `Server` interface (src/main.go:14). -/
def Server.IsAlive (s : Server) : Bool := s.alive

/-- Transport outcome of `Serve` (src/main.go:15): `true` means the forward
succeeded at the transport level. -/
def Server.Serve (s : Server) : Bool := s.serveOk

/-- `SimpleServer` (src/main.go:19-22): an address whose requests go to a
single-host reverse proxy; `serveOk` records the transport outcome of that
proxy for the request under consideration. -/
structure SimpleServer where
  addr : String
  serveOk : Bool
deriving DecidableEq, Repr

/-- `SimpleServer.IsAlive` (src/main.go:43-46): the health stub,
unconditionally `true`. -/
def SimpleServer.IsAlive (_ : SimpleServer) : Bool := true

/-- A `SimpleServer` seen through the `Server` interface: its liveness is
whatever its `IsAlive` stub returns. -/
def SimpleServer.toServer (s : SimpleServer) : Server :=
  { addr := s.addr, alive := s.IsAlive, serveOk := s.serveOk }

/-- Result of running the selection loop of `GetNextAvailableServer`
(src/main.go:69-80) for a bounded number of iterations. -/
inductive SelectResult where
  /-- Go runtime panic `integer divide by zero`: `len(lb.servers) = 0`. -/
  | panicked
  /-- The loop has not exited within the given number of iterations. -/
  | spinning
  /-- The loop exited: the chosen server and the updated `roundRobinCount`
  (the source increments the counter once more after `break`). -/
  | picked (s : Server) (rrc : Nat)
deriving DecidableEq, Repr

/-- `GetNextAvailableServer` (src/main.go:69-80), with `fuel` bounding the
number of loop iterations observed:

```go
for {
    server = lb.servers[lb.roundRobinCount%len(lb.servers)]
    if server.IsAlive() { break }
    lb.roundRobinCount++
}
lb.roundRobinCount++
return server
```

The cursor is taken here at its mathematical value, as a `Nat`: this covers
every state the counter reaches before it overflows `MaxInt64`. The source's
counter is a signed 64-bit Go `int`, so its wrap past `MaxInt64` — and the
resulting negative remainder and runtime index panic — is modelled separately
and faithfully by `GetNextAvailableServerGo` below. -/
def GetNextAvailableServer (servers : List Server) (rrc : Nat) : Nat → SelectResult
  | 0 => .spinning
  | fuel + 1 =>
    if h : servers.length = 0 then
      .panicked
    else
      let server := servers.get ⟨rrc % servers.length, Nat.mod_lt rrc (Nat.pos_of_ne_zero h)⟩
      if server.IsAlive then .picked server (rrc + 1)
      else GetNextAvailableServer servers (rrc + 1) fuel

/-- Go's `%` on a signed dividend and a slice length (src/main.go:72): Go uses
truncated division, so the remainder carries the dividend's sign — for a
negative counter and a length that does not divide it, the result is
negative. -/
def goMod (a : Int) (n : Nat) : Int :=
  if 0 ≤ a then ((a.toNat % n : Nat) : Int) else -(((-a).toNat % n : Nat) : Int)

/-- Two's-complement wraparound of a 64-bit signed Go `int`: the value the
counter holds after arithmetic, reduced into `[-2^63, 2^63)`; in particular
`wrap64 (MaxInt64 + 1) = -2^63`, the value `roundRobinCount++` produces when
it overflows. -/
def wrap64 (x : Int) : Int := (x + 2 ^ 63).emod (2 ^ 64) - 2 ^ 63

/-- Result of the selection loop under the source's signed-counter semantics. -/
inductive GoSelect where
  /-- Go runtime panic `integer divide by zero`: `len(lb.servers) = 0`. -/
  | divByZero
  /-- Go runtime panic `index out of range`: `lb.servers[idx]` with a negative
  index, the fate of a wrapped (negative) counter. -/
  | indexOutOfRange (idx : Int)
  /-- The loop has not exited within the given number of iterations. -/
  | spinning
  /-- The loop exited: the chosen server and the updated counter. -/
  | picked (s : Server) (rrc : Int)
deriving DecidableEq, Repr

/-- `GetNextAvailableServer` (src/main.go:69-80) with the counter's machine
type made explicit: `roundRobinCount` is a signed 64-bit Go `int`, so `++`
wraps past `MaxInt64` (`wrap64`), `%` truncates toward zero (`goMod`), and the
Go runtime bounds check makes `lb.servers[idx]` panic when the remainder is
negative. -/
def GetNextAvailableServerGo (servers : List Server) (rrc : Int) :
    Nat → GoSelect
  | 0 => .spinning
  | fuel + 1 =>
    if servers.length = 0 then
      .divByZero
    else
      let idx := goMod rrc servers.length
      if h : 0 ≤ idx ∧ idx < (servers.length : Int) then
        let server := servers.get ⟨idx.toNat, by omega⟩
        if server.IsAlive then .picked server (wrap64 (rrc + 1))
        else GetNextAvailableServerGo servers (wrap64 (rrc + 1)) fuel
      else
        .indexOutOfRange idx

/-- Result of one `ServeProxy` call (src/main.go:83-87). -/
inductive ProxyResult where
  /-- Selection panicked (empty server slice). -/
  | panicked
  /-- Selection never returned within the given fuel. -/
  | spinning
  /-- The request was forwarded to `s`, with the given transport outcome, and
  `roundRobinCount` is now `rrc`. -/
  | served (s : Server) (transportOk : Bool) (rrc : Nat)
deriving DecidableEq, Repr

/-- `ServeProxy` (src/main.go:83-87): select the next available server and
forward the request to it — exactly one forward, whatever its outcome; the
source inspects no error and retries nothing. -/
def ServeProxy (servers : List Server) (rrc fuel : Nat) : ProxyResult :=
  match GetNextAvailableServer servers rrc fuel with
  | .panicked => .panicked
  | .spinning => .spinning
  | .picked s r => .served s s.Serve r

/-- Number of transport-level forward attempts a `ServeProxy` call performed. -/
def forwardAttempts : ProxyResult → Nat
  | .served _ _ _ => 1
  | _ => 0

/-- The servers returned by `k` consecutive calls to `GetNextAvailableServer`,
threading the updated `roundRobinCount` from call to call; each call gets fuel
`servers.length`, enough iterations for the loop to exit whenever some backend
is alive. A call that panics or spins ends the run. -/
def selectSeq (servers : List Server) (rrc : Nat) : Nat → List Server
  | 0 => []
  | k + 1 =>
    match GetNextAvailableServer servers rrc servers.length with
    | .picked s r => s :: selectSeq servers r k
    | _ => []

/-- Modelled from the spec: the `HealthState` component (§4.2) is missing from
src/main.go, where health checking is stubbed (`SimpleServer.IsAlive`
unconditionally returns `true`, src/main.go:43-46) and nothing ever calls
`recordSuccess`/`recordFailure`. Per the spec, `HealthState` keeps a
consecutive-failure counter per backend: `recordFailure` increments it,
`recordSuccess` resets it, and the backend is alive while the counter is below
the configured threshold (default 3). This structure is the state of one
backend; backends are independent. -/
structure HealthState where
  consecutiveFailures : Nat
deriving DecidableEq, Repr

/-- Modelled from the spec: `recordFailure(backendId)` — one more consecutive
failure. -/
def HealthState.recordFailure (h : HealthState) : HealthState :=
  ⟨h.consecutiveFailures + 1⟩

/-- Modelled from the spec: `recordSuccess(backendId)` — a success clears the
consecutive-failure counter, restoring liveness. -/
def HealthState.recordSuccess (_ : HealthState) : HealthState :=
  ⟨0⟩

/-- Modelled from the spec: `isAlive(backendId)` — alive while the
consecutive-failure counter has not reached the threshold. -/
def HealthState.isAlive (threshold : Nat) (h : HealthState) : Bool :=
  decide (h.consecutiveFailures < threshold)

/-- Modelled from the spec (§4.3 refinement reference, the words of the spec):
plain round robin — "compute `index = cursor mod len(backendSet)`", return the
backend at that index, and advance the cursor by exactly one; `none` when the
set is empty. -/
def plainRoundRobinNext (servers : List Server) (rrc : Nat) :
    Option (Server × Nat) :=
  if h : 0 < servers.length then
    some (servers.get ⟨rrc % servers.length, Nat.mod_lt rrc h⟩, rrc + 1)
  else none

/-! ## Concrete servers for witnesses and counterexamples -/

/-- An always-alive backend whose forward fails at the transport level. -/
def exDown1 : Server := { addr := "http://b1", alive := true, serveOk := false }

/-- A second always-alive backend whose forward fails at the transport level. -/
def exDown2 : Server := { addr := "http://b2", alive := true, serveOk := false }

/-- A third always-alive backend whose forward fails at the transport level. -/
def exDown3 : Server := { addr := "http://b3", alive := true, serveOk := false }

/-- An always-alive backend whose forward succeeds. -/
def exUp3 : Server := { addr := "http://b3", alive := true, serveOk := true }

/-- A backend whose `IsAlive` reports `false`. -/
def exDead : Server := { addr := "http://dead", alive := false, serveOk := false }

/-- A healthy backend. -/
def exAliveA : Server := { addr := "http://a", alive := true, serveOk := true }

/-- Another healthy backend. -/
def exAliveB : Server := { addr := "http://b", alive := true, serveOk := true }

/-! ## Basic facts about the selection loop -/

theorem getNext_zero (servers : List Server) (rrc : Nat) :
    GetNextAvailableServer servers rrc 0 = .spinning := rfl

theorem getNext_nil (rrc fuel : Nat) :
    GetNextAvailableServer [] rrc (fuel + 1) = .panicked := rfl

theorem getNext_alive (servers : List Server) (rrc fuel : Nat)
    (h : 0 < servers.length)
    (ha : (servers.get ⟨rrc % servers.length, Nat.mod_lt rrc h⟩).IsAlive = true) :
    GetNextAvailableServer servers rrc (fuel + 1) =
      .picked (servers.get ⟨rrc % servers.length, Nat.mod_lt rrc h⟩) (rrc + 1) := by
  simp only [GetNextAvailableServer]
  rw [dif_neg (Nat.pos_iff_ne_zero.mp h)]
  have hlt : rrc % servers.length < servers.length := Nat.mod_lt rrc h
  have ha' : servers[rrc % servers.length].IsAlive = true := ha
  simp [ha']

theorem getNext_dead (servers : List Server) (rrc fuel : Nat)
    (h : 0 < servers.length)
    (hd : (servers.get ⟨rrc % servers.length, Nat.mod_lt rrc h⟩).IsAlive = false) :
    GetNextAvailableServer servers rrc (fuel + 1) =
      GetNextAvailableServer servers (rrc + 1) fuel := by
  simp only [GetNextAvailableServer]
  rw [dif_neg (Nat.pos_iff_ne_zero.mp h)]
  have hlt : rrc % servers.length < servers.length := Nat.mod_lt rrc h
  have hd' : servers[rrc % servers.length].IsAlive = false := hd
  simp [hd']

/-- A server the loop returns was read from the slice at an in-range index and
passed its `IsAlive` check. -/
theorem getNext_picked_mem (servers : List Server) :
    ∀ fuel rrc s r, GetNextAvailableServer servers rrc fuel = .picked s r →
      s ∈ servers ∧ s.IsAlive = true := by
  intro fuel
  induction fuel with
  | zero => intro rrc s r hpick; simp [getNext_zero] at hpick
  | succ fuel ih =>
    intro rrc s r hpick
    rcases Nat.eq_zero_or_pos servers.length with h0 | hpos
    · rw [List.length_eq_zero.mp h0, getNext_nil] at hpick
      exact absurd hpick (by simp)
    · by_cases ha :
        (servers.get ⟨rrc % servers.length, Nat.mod_lt rrc hpos⟩).IsAlive = true
      · rw [getNext_alive servers rrc fuel hpos ha] at hpick
        obtain ⟨hs, _⟩ := SelectResult.picked.inj hpick
        exact ⟨hs ▸ List.get_mem _ _ _, hs ▸ ha⟩
      · rw [getNext_dead servers rrc fuel hpos (by simpa using ha)] at hpick
        exact ih (rrc + 1) s r hpick

/-- With every backend dead, the loop never exits: whatever the fuel, the run
is still `spinning`. -/
theorem getNext_all_dead (servers : List Server) (hne : servers ≠ [])
    (hdead : ∀ s ∈ servers, s.IsAlive = false) :
    ∀ fuel rrc, GetNextAvailableServer servers rrc fuel = .spinning := by
  intro fuel
  induction fuel with
  | zero => intro rrc; exact getNext_zero servers rrc
  | succ fuel ih =>
    intro rrc
    have hpos : 0 < servers.length := List.length_pos.mpr hne
    have hd :
        (servers.get ⟨rrc % servers.length, Nat.mod_lt rrc hpos⟩).IsAlive = false :=
      hdead _ (List.get_mem _ _ _)
    rw [getNext_dead servers rrc fuel hpos hd]
    exact ih (rrc + 1)

/-- If some alive backend appears within `fuel` steps of the forward scan, the
loop exits within that fuel. -/
theorem getNext_reaches (servers : List Server) (hpos : 0 < servers.length) :
    ∀ fuel rrc,
      (∃ i, i < fuel ∧ ∃ s, servers.get? ((rrc + i) % servers.length) = some s ∧
        s.IsAlive = true) →
      ∃ s r, GetNextAvailableServer servers rrc fuel = .picked s r := by
  intro fuel
  induction fuel with
  | zero => intro rrc ⟨i, hi, _⟩; omega
  | succ fuel ih =>
    intro rrc ⟨i, hi, s, hget, halive⟩
    by_cases ha :
      (servers.get ⟨rrc % servers.length, Nat.mod_lt rrc hpos⟩).IsAlive = true
    · exact ⟨_, _, getNext_alive servers rrc fuel hpos ha⟩
    · rw [getNext_dead servers rrc fuel hpos (by simpa using ha)]
      apply ih (rrc + 1)
      rcases Nat.eq_zero_or_pos i with rfl | hipos
      · exfalso
        rw [Nat.add_zero, List.get?_eq_get (Nat.mod_lt rrc hpos)] at hget
        exact ha (Option.some.inj hget ▸ halive)
      · exact ⟨i - 1, by omega, s, by rw [show rrc + 1 + (i - 1) = rrc + i by omega]; exact hget, halive⟩

/-- Full forward-scan characterization of a successful selection: the loop
returns the first alive backend at or after the cursor in scan order, and the
updated counter records exactly how far it advanced. -/
theorem getNext_picked_spec (servers : List Server) :
    ∀ fuel rrc s r, GetNextAvailableServer servers rrc fuel = .picked s r →
      ∃ i, i < fuel ∧ r = rrc + i + 1 ∧
        servers.get? ((rrc + i) % servers.length) = some s ∧ s.IsAlive = true ∧
        ∀ t, t < i → ∀ s', servers.get? ((rrc + t) % servers.length) = some s' →
          s'.IsAlive = false := by
  intro fuel
  induction fuel with
  | zero => intro rrc s r hpick; simp [getNext_zero] at hpick
  | succ fuel ih =>
    intro rrc s r hpick
    rcases Nat.eq_zero_or_pos servers.length with h0 | hpos
    · rw [List.length_eq_zero.mp h0, getNext_nil] at hpick
      exact absurd hpick (by simp)
    · by_cases ha :
        (servers.get ⟨rrc % servers.length, Nat.mod_lt rrc hpos⟩).IsAlive = true
      · rw [getNext_alive servers rrc fuel hpos ha] at hpick
        obtain ⟨hs, hr⟩ := SelectResult.picked.inj hpick
        refine ⟨0, Nat.succ_pos _, by omega, ?_, hs ▸ ha, by omega⟩
        rw [Nat.add_zero, List.get?_eq_get (Nat.mod_lt rrc hpos), hs]
      · rw [getNext_dead servers rrc fuel hpos (by simpa using ha)] at hpick
        obtain ⟨i, hi, hr, hget, halive, hfirst⟩ := ih (rrc + 1) s r hpick
        refine ⟨i + 1, by omega, by omega,
          by rw [show rrc + (i + 1) = rrc + 1 + i by omega]; exact hget, halive, ?_⟩
        intro t ht s' hget'
        rcases Nat.eq_zero_or_pos t with rfl | htpos
        · rw [Nat.add_zero, List.get?_eq_get (Nat.mod_lt rrc hpos)] at hget'
          simpa [← Option.some.inj hget'] using ha
        · exact hfirst (t - 1) (by omega) s'
            (by rw [show rrc + 1 + (t - 1) = rrc + t by omega]; exact hget')

/-! ## The all-alive case: plain round robin -/

/-- With every backend alive the loop exits on its first iteration, returning
the cursor-indexed server and advancing the counter by exactly one. -/
theorem getNext_all_alive (servers : List Server) (hpos : 0 < servers.length)
    (hal : ∀ s ∈ servers, s.IsAlive = true) (rrc fuel : Nat) (hfuel : 0 < fuel) :
    GetNextAvailableServer servers rrc fuel =
      .picked (servers.get ⟨rrc % servers.length, Nat.mod_lt rrc hpos⟩) (rrc + 1) := by
  obtain ⟨f, rfl⟩ : ∃ f, fuel = f + 1 := ⟨fuel - 1, by omega⟩
  exact getNext_alive servers rrc f hpos (hal _ (List.get_mem _ _ _))

/-- With every backend alive, `k` consecutive calls walk the indices
`rrc, rrc+1, …, rrc+k-1` modulo the length. -/
theorem selectSeq_all_alive (servers : List Server) (hpos : 0 < servers.length)
    (hal : ∀ s ∈ servers, s.IsAlive = true) :
    ∀ k rrc, selectSeq servers rrc k =
      (List.range k).map
        (fun i => servers.get ⟨(rrc + i) % servers.length, Nat.mod_lt _ hpos⟩) := by
  intro k
  induction k with
  | zero => intro rrc; rfl
  | succ k ih =>
    intro rrc
    simp only [selectSeq,
      getNext_all_alive servers hpos hal rrc servers.length hpos]
    rw [ih (rrc + 1), List.range_succ_eq_map, List.map_cons, List.map_map]
    refine congrArg₂ _ (by rw [Nat.add_zero]) ?_
    apply List.map_congr_left
    intro i _
    simp only [Function.comp]
    congr 1
    exact Fin.ext
      (congrArg (fun t => t % servers.length) (by omega : rrc + 1 + i = rrc + i.succ))

/-- `length` consecutive all-alive selections starting at cursor `rrc` produce
exactly the server list rotated by `rrc mod length`. -/
theorem selectSeq_eq_rotate (servers : List Server) (hpos : 0 < servers.length)
    (hal : ∀ s ∈ servers, s.IsAlive = true) (rrc : Nat) :
    selectSeq servers rrc servers.length =
      servers.rotate (rrc % servers.length) := by
  apply List.ext_get?
  intro i
  rw [selectSeq_all_alive servers hpos hal servers.length rrc]
  by_cases hi : i < servers.length
  · rw [List.get?_map, List.get?_range hi, List.get?_rotate hi,
      Nat.add_mod_mod i rrc servers.length, Nat.add_comm i rrc,
      List.get?_eq_get (Nat.mod_lt _ hpos)]
    simp only [Option.map_some']
  · rw [List.get?_eq_none.mpr (by simpa using hi),
      List.get?_eq_none.mpr (by rw [List.length_rotate]; omega)]

/-! ## Dispatch -/

theorem serveProxy_of_picked (servers : List Server) (rrc fuel : Nat)
    (s : Server) (r : Nat)
    (h : GetNextAvailableServer servers rrc fuel = .picked s r) :
    ServeProxy servers rrc fuel = .served s s.Serve r := by
  simp [ServeProxy, h]

/-! ## HealthState arithmetic -/

theorem recordFailure_iterate (h : HealthState) :
    ∀ n, (HealthState.recordFailure^[n] h).consecutiveFailures =
      h.consecutiveFailures + n := by
  intro n
  induction n with
  | zero => rfl
  | succ n ih =>
    rw [Function.iterate_succ_apply']
    simp only [HealthState.recordFailure, ih]
    omega

/-- Any member of the slice is read by the forward scan within `length` steps
of any starting cursor. -/
theorem mem_reachable (servers : List Server) (hpos : 0 < servers.length)
    (s : Server) (hmem : s ∈ servers) (rrc : Nat) :
    ∃ i, i < servers.length ∧
      servers.get? ((rrc + i) % servers.length) = some s := by
  obtain ⟨j, hj, hval⟩ := List.mem_iff_getElem.mp hmem
  obtain ⟨m, hm⟩ : ∃ m, rrc % servers.length = m := ⟨_, rfl⟩
  have hmlt : m < servers.length := hm ▸ Nat.mod_lt rrc hpos
  refine ⟨(j + (servers.length - m)) % servers.length, Nat.mod_lt _ hpos, ?_⟩
  have hidx : (rrc + (j + (servers.length - m)) % servers.length) %
      servers.length = j := by
    rw [Nat.add_mod_mod, ← Nat.mod_add_mod, hm,
      show m + (j + (servers.length - m)) = j + servers.length from by omega,
      Nat.add_mod_right]
    exact Nat.mod_eq_of_lt hj
  rw [hidx, List.get?_eq_get hj]
  exact congrArg some hval

/-! ## The claims -/

/-- C1: if zero backends are alive, the selection operation is claimed to fail
with `NoAvailableBackend` within at most `len(backendSet)` probing steps. The
source code does the opposite: for every all-dead non-empty backend set, every
cursor value and every iteration bound, the loop of `GetNextAvailableServer`
has still not exited — it spins forever instead of failing. -/
theorem C1_all_dead_loop_never_exits (servers : List Server) (hne : servers ≠ [])
    (hdead : ∀ s ∈ servers, s.IsAlive = false) (rrc fuel : Nat) :
    GetNextAvailableServer servers rrc fuel = .spinning :=
  getNext_all_dead servers hne hdead fuel rrc

theorem C1_witness :
    GetNextAvailableServer [exDead] 0 5 = .spinning :=
  C1_all_dead_loop_never_exits [exDead] (by decide) (by decide) 0 5

/-- C2, counterexample: with 3 alive backends that all fail at the transport
level and cursor 0, the source dispatcher performs exactly 1 forward attempt,
not the claimed 3, and has no `UpstreamUnavailable` outcome at all. -/
theorem C2_counterexample :
    forwardAttempts (ServeProxy [exDown1, exDown2, exDown3] 0 3) = 1 ∧
    forwardAttempts (ServeProxy [exDown1, exDown2, exDown3] 0 3) ≠ 3 := by
  decide

/-- C2, amended: with 3 backends, all alive and all failing at the transport
level, `ServeProxy` makes exactly 1 forward attempt — to the cursor-selected
backend, whose transport failure is the response — and performs no retry; the
source has no `UpstreamUnavailable` path and records no health events. -/
theorem C2_amended_single_attempt (servers : List Server) (rrc fuel : Nat)
    (hlen : servers.length = 3)
    (hal : ∀ s ∈ servers, s.IsAlive = true)
    (hfail : ∀ s ∈ servers, s.Serve = false) :
    ∃ s, s ∈ servers ∧
      ServeProxy servers rrc (fuel + 1) = .served s false (rrc + 1) ∧
      forwardAttempts (ServeProxy servers rrc (fuel + 1)) = 1 := by
  have hpos : 0 < servers.length := by omega
  have hpick := getNext_all_alive servers hpos hal rrc (fuel + 1) (Nat.succ_pos _)
  refine ⟨servers.get ⟨rrc % servers.length, Nat.mod_lt rrc hpos⟩,
    List.get_mem _ _ _, ?_, ?_⟩
  · rw [serveProxy_of_picked servers rrc (fuel + 1) _ _ hpick,
      hfail _ (List.get_mem _ _ _)]
  · rw [serveProxy_of_picked servers rrc (fuel + 1) _ _ hpick]
    rfl

theorem C2_witness :
    ∃ s, s ∈ [exDown1, exDown2, exDown3] ∧
      ServeProxy [exDown1, exDown2, exDown3] 0 1 = .served s false 1 ∧
      forwardAttempts (ServeProxy [exDown1, exDown2, exDown3] 0 1) = 1 :=
  C2_amended_single_attempt [exDown1, exDown2, exDown3] 0 0
    (by decide) (by decide) (by decide)

/-- C3, counterexample: with 3 alive backends where the first two candidates
fail at the transport level and the third succeeds, and cursor 0, the source
dispatcher forwards once to the first candidate and returns its transport
failure — not the third backend's response — and records nothing. -/
theorem C3_counterexample :
    ServeProxy [exDown1, exDown2, exUp3] 0 3 = .served exDown1 false 1 ∧
    exDown1 ≠ exUp3 ∧
    forwardAttempts (ServeProxy [exDown1, exDown2, exUp3] 0 3) = 1 := by
  decide

/-- C3, amended: whenever the cursor-selected candidate is alive but fails at
the transport level, `ServeProxy` forwards exactly once — to that candidate —
and the client gets its transport failure; the dispatch path never reaches a
further backend and records no failures or successes (the source has no
`HealthState`). -/
theorem C3_amended_first_candidate_response (servers : List Server)
    (rrc fuel : Nat) (s : Server)
    (hget : servers.get? (rrc % servers.length) = some s)
    (halive : s.IsAlive = true) (hfail : s.Serve = false) :
    ServeProxy servers rrc (fuel + 1) = .served s false (rrc + 1) ∧
    forwardAttempts (ServeProxy servers rrc (fuel + 1)) = 1 := by
  have hpos : 0 < servers.length := by
    rcases Nat.eq_zero_or_pos servers.length with h0 | h
    · rw [h0, Nat.mod_zero, List.get?_eq_none.mpr (by omega)] at hget
      exact absurd hget (by simp)
    · exact h
  have hlt : rrc % servers.length < servers.length := Nat.mod_lt rrc hpos
  rw [List.get?_eq_get hlt] at hget
  have hs : servers.get ⟨rrc % servers.length, hlt⟩ = s := Option.some.inj hget
  have hpick := getNext_alive servers rrc fuel hpos (hs ▸ halive)
  rw [hs] at hpick
  constructor
  · rw [serveProxy_of_picked servers rrc (fuel + 1) _ _ hpick, hfail]
  · rw [serveProxy_of_picked servers rrc (fuel + 1) _ _ hpick]
    rfl

theorem C3_witness :
    ServeProxy [exDown1, exDown2, exUp3] 0 1 = .served exDown1 false 1 ∧
    forwardAttempts (ServeProxy [exDown1, exDown2, exUp3] 0 1) = 1 :=
  C3_amended_first_candidate_response [exDown1, exDown2, exUp3] 0 0 exDown1
    (by decide) (by decide) (by decide)

/-- C4: for every non-empty, duplicate-free, all-alive backend set and every
cursor value, `N = length` consecutive calls to `GetNextAvailableServer`
return every backend of the set at least once, and no backend twice — so each
backend appears once before any repeats. -/
theorem C4_round_robin_coverage (servers : List Server) (rrc : Nat)
    (hne : servers ≠ []) (hnd : servers.Nodup)
    (hal : ∀ s ∈ servers, s.IsAlive = true) :
    (∀ b ∈ servers, b ∈ selectSeq servers rrc servers.length) ∧
    (selectSeq servers rrc servers.length).Nodup := by
  have hpos : 0 < servers.length := List.length_pos.mpr hne
  have hperm : (selectSeq servers rrc servers.length).Perm servers := by
    rw [selectSeq_eq_rotate servers hpos hal rrc]
    exact List.rotate_perm servers _
  exact ⟨fun b hb => hperm.mem_iff.mpr hb, hperm.nodup_iff.mpr hnd⟩

theorem C4_witness :
    (∀ b ∈ [exAliveA, exAliveB],
      b ∈ selectSeq [exAliveA, exAliveB] 3 [exAliveA, exAliveB].length) ∧
    (selectSeq [exAliveA, exAliveB] 3 [exAliveA, exAliveB].length).Nodup :=
  C4_round_robin_coverage [exAliveA, exAliveB] 3
    (by decide) (by decide) (by decide)

/-- C5: if exactly one backend of the set is alive, then from every cursor
value the selection loop — run with `length` iterations of fuel — returns that
backend. -/
theorem C5_unique_alive_selected (servers : List Server) (s₀ : Server)
    (rrc : Nat) (hmem : s₀ ∈ servers) (halive : s₀.IsAlive = true)
    (huniq : ∀ s ∈ servers, s.IsAlive = true → s = s₀) :
    ∃ r, GetNextAvailableServer servers rrc servers.length = .picked s₀ r := by
  have hpos : 0 < servers.length :=
    List.length_pos.mpr (by rintro rfl; simp at hmem)
  obtain ⟨i, hi, hget⟩ := mem_reachable servers hpos s₀ hmem rrc
  obtain ⟨s, r, hpick⟩ :=
    getNext_reaches servers hpos servers.length rrc ⟨i, hi, s₀, hget, halive⟩
  obtain ⟨hsmem, hsalive⟩ :=
    getNext_picked_mem servers servers.length rrc s r hpick
  exact ⟨r, huniq s hsmem hsalive ▸ hpick⟩

theorem C5_witness :
    ∃ r, GetNextAvailableServer [exDead, exAliveA] 0
      [exDead, exAliveA].length = .picked exAliveA r :=
  C5_unique_alive_selected [exDead, exAliveA] exAliveA 0
    (by decide) (by decide) (by decide)

/-- C6: the claim says the round-robin counter may wrap safely — never
crashing and never selecting outside the set. The code does crash: the counter
is a signed Go `int`, overflow wraps it negative, Go's truncated `%` then
yields a negative remainder whenever the length does not divide the counter,
and `lb.servers[idx]` panics with index out of range before any backend is
inspected. Proved for every non-empty backend set, every negative (wrapped)
cursor with a non-zero remainder, and every fuel. -/
theorem C6_wrap_negative_cursor_panics (servers : List Server) (rrc : Int)
    (fuel : Nat) (hne : servers ≠ []) (hneg : rrc < 0)
    (hmod : goMod rrc servers.length ≠ 0) :
    GetNextAvailableServerGo servers rrc (fuel + 1) =
      .indexOutOfRange (goMod rrc servers.length) := by
  have hpos : 0 < servers.length := List.length_pos.mpr hne
  have hidxneg : goMod rrc servers.length < 0 := by
    unfold goMod at hmod ⊢
    rw [if_neg (by omega)] at hmod ⊢
    omega
  simp only [GetNextAvailableServerGo]
  rw [if_neg (Nat.pos_iff_ne_zero.mp hpos), dif_neg (by omega)]

theorem C6_witness :
    GetNextAvailableServerGo [exAliveA, exAliveB, exUp3]
      (wrap64 (2 ^ 63 - 1 + 1)) 1 =
      .indexOutOfRange (goMod (wrap64 (2 ^ 63 - 1 + 1)) 3) :=
  C6_wrap_negative_cursor_panics [exAliveA, exAliveB, exUp3]
    (wrap64 (2 ^ 63 - 1 + 1)) 0 (by decide) (by decide) (by decide)

/-- C7: per backend, after `N` consecutive `recordFailure` events with no
intervening success (threshold `N`, default 3, must be positive) `isAlive`
reports `false`, and a single subsequent `recordSuccess` restores `isAlive` to
`true`. Proved over the spec-modelled `HealthState`; the source stubs health
checking to always-alive. -/
theorem C7_threshold_flip (h : HealthState) (N : Nat) (hN : 0 < N) :
    (HealthState.recordFailure^[N] h).isAlive N = false ∧
    ((HealthState.recordFailure^[N] h).recordSuccess).isAlive N = true := by
  constructor
  · simp only [HealthState.isAlive, recordFailure_iterate,
      decide_eq_false_iff_not]
    omega
  · simp only [HealthState.recordSuccess, HealthState.isAlive,
      decide_eq_true_eq]
    omega

theorem C7_witness :
    (HealthState.recordFailure^[3] ⟨0⟩).isAlive 3 = false ∧
    ((HealthState.recordFailure^[3] ⟨0⟩).recordSuccess).isAlive 3 = true :=
  C7_threshold_flip ⟨0⟩ 3 (by decide)

/-- C8: selection is deterministic — from equal states (same backend sequence
and same cursor) the loop returns the same result, and every successful
selection is the unique forward scan: the returned backend sits at offset `i`
from the cursor in sequence order, every earlier offset holds a dead backend,
and the counter advances to exactly `cursor + i + 1`. -/
theorem C8_deterministic_forward_scan (servers : List Server)
    (c₁ c₂ fuel : Nat) (hc : c₁ = c₂) :
    GetNextAvailableServer servers c₁ fuel =
      GetNextAvailableServer servers c₂ fuel ∧
    ∀ s r, GetNextAvailableServer servers c₁ fuel = .picked s r →
      ∃ i, i < fuel ∧ r = c₁ + i + 1 ∧
        servers.get? ((c₁ + i) % servers.length) = some s ∧
        s.IsAlive = true ∧
        ∀ t, t < i → ∀ s', servers.get? ((c₁ + t) % servers.length) = some s' →
          s'.IsAlive = false := by
  subst hc
  exact ⟨rfl, getNext_picked_spec servers fuel c₁⟩

theorem C8_witness :
    GetNextAvailableServer [exDead, exAliveA] 2 2 =
      GetNextAvailableServer [exDead, exAliveA] 2 2 :=
  (C8_deterministic_forward_scan [exDead, exAliveA] 2 2 2 rfl).1

/-- C9: under the source's always-alive health stub, `GetNextAvailableServer`
coincides with plain round robin: for every non-empty `SimpleServer` list and
every cursor it returns the server at index `cursor mod length`, the counter
advances by exactly 1, and the skip branch is never taken — one iteration of
fuel (`fuel + 1` with `fuel = 0`) already suffices. -/
theorem C9_stub_refines_plain_round_robin (simples : List SimpleServer)
    (rrc fuel : Nat) (hne : simples ≠ []) :
    ∃ s, GetNextAvailableServer (simples.map SimpleServer.toServer) rrc
        (fuel + 1) = .picked s (rrc + 1) ∧
      plainRoundRobinNext (simples.map SimpleServer.toServer) rrc =
        some (s, rrc + 1) := by
  have hpos : 0 < (simples.map SimpleServer.toServer).length := by
    rw [List.length_map]
    exact List.length_pos.mpr hne
  have hal : ∀ s ∈ simples.map SimpleServer.toServer, s.IsAlive = true := by
    intro s hs
    obtain ⟨t, _, rfl⟩ := List.mem_map.mp hs
    rfl
  refine ⟨_, getNext_all_alive _ hpos hal rrc (fuel + 1) (Nat.succ_pos _), ?_⟩
  rw [plainRoundRobinNext, dif_pos hpos]

theorem C9_witness :
    ∃ s, GetNextAvailableServer
        ([⟨"http://a", true⟩, ⟨"http://b", false⟩].map SimpleServer.toServer)
        7 (0 + 1) = .picked s (7 + 1) ∧
      plainRoundRobinNext
        ([⟨"http://a", true⟩, ⟨"http://b", false⟩].map SimpleServer.toServer)
        7 = some (s, 7 + 1) :=
  C9_stub_refines_plain_round_robin [⟨"http://a", true⟩, ⟨"http://b", false⟩]
    7 0 (by decide)

/-- C10: non-emptiness is an unstated precondition of selection — with an
empty server slice, `GetNextAvailableServer` (and with it `ServeProxy`) hits
the Go divide-by-zero panic in `roundRobinCount % len(servers)` on its first
iteration, for every cursor value, so no backend is ever returned for an
empty set. -/
theorem C10_empty_set_divide_by_zero (rrc fuel : Nat) :
    GetNextAvailableServer [] rrc (fuel + 1) = .panicked ∧
    ServeProxy [] rrc (fuel + 1) = .panicked := by
  refine ⟨getNext_nil rrc fuel, ?_⟩
  simp [ServeProxy, getNext_nil]

end GoLoadBalancer
